import Mathlib

/-!
A shallow embedding of `src/gantt.py` (pandas-based Gantt chart generator).

Dates are modelled as natural numbers counting days from an epoch chosen so
that day 0 is a Monday; this matches `arrow`'s `date.weekday()` convention
(Monday = 0).  Pandas `DatetimeIndex` / date sequences become `List Nat`;
numpy boolean arrays become lists of 0/1 naturals; the `assert` statements in
the Python source become `Option` results (`none` = the assertion fires) or
explicit `Bool` checks.
-/

namespace Gantt

/-- Embeds the module-level tuple `DAYS` of the seven weekday names. -/
def DAYS : List String :=
  ["monday", "tuesday", "wednesday", "thursday", "friday", "saturday", "sunday"]

/-- Embeds `mapping[date.weekday()]` from `is_workday`: the weekday name of day
number `d`, where day 0 is a Monday (arrow's `weekday()` gives Monday = 0). -/
def weekdayName (d : Nat) : String := DAYS.getD (d % 7) ""

/-- Embeds `is_workday(date, weekend, holidays)`: true when `date` is not a
holiday and its weekday name is not in `weekend`.  In the source the `weekend`
argument has already been lower-cased by `generate_date_series`. -/
def is_workday (date : Nat) (weekend : List String) (holidays : List Nat) : Bool :=
  (!holidays.contains date) && (!weekend.contains (weekdayName date))

/-- Embeds `pd.date_range(start_date, end_date)`: all days from `s` to `e`
inclusive (empty when `e < s`). -/
def date_range (s e : Nat) : List Nat := (List.range (e + 1 - s)).map (fun k => s + k)

/-- Embeds `generate_date_series(start_date, end_date, weekend, holidays)`.
The Python function lower-cases `weekend`, asserts that the result is a subset
of `DAYS` (an `AssertionError` — the spec's `InvalidPolicyError` — otherwise,
modelled as `none`), and returns the dates of the inclusive range that are
workdays. -/
def generate_date_series (s e : Nat) (weekend : List String) (holidays : List Nat) :
    Option (List Nat) :=
  if (weekend.map String.toLower).all (fun w => DAYS.contains w) then
    some ((date_range s e).filter
      (fun d => is_workday d (weekend.map String.toLower) holidays))
  else
    none

/-- Embeds `np.cumsum`: the list of prefix sums. -/
def cumsum : List Nat → List Nat
  | [] => []
  | x :: xs => x :: (cumsum xs).map (fun y => x + y)

/-- Embeds the numpy boolean array `date_range == date` (True = 1, False = 0). -/
def eqMask (axis : List Nat) (date : Nat) : List Nat :=
  axis.map (fun d => if d = date then 1 else 0)

/-- Embeds `where(date, date_range)` (named `whereIdx` because `where` is a
Lean keyword): `np.cumsum(np.flip(date_range == date)).sum() - 1`, with
`np.flip` modelled by `List.reverse`. -/
def whereIdx (date : Nat) (axis : List Nat) : Int :=
  ((cumsum (eqMask axis date).reverse).sum : Int) - 1

/-! Lemmas about `cumsum` and `whereIdx`. -/

lemma cumsum_length (xs : List Nat) : (cumsum xs).length = xs.length := by
  induction xs with
  | nil => rfl
  | cons x xs ih => simp [cumsum, ih]

lemma cumsum_append_singleton (m : List Nat) (x : Nat) :
    cumsum (m ++ [x]) = cumsum m ++ [m.sum + x] := by
  induction m with
  | nil => simp [cumsum]
  | cons a m ih =>
      simp [cumsum, ih, List.map_append, Nat.add_assoc]

lemma cumsum_reverse_cons (x : Nat) (m : List Nat) :
    (cumsum (x :: m).reverse).sum = x + m.sum + (cumsum m.reverse).sum := by
  have h : (x :: m).reverse = m.reverse ++ [x] := by simp
  rw [h, cumsum_append_singleton]
  simp [List.sum_append, List.sum_reverse]
  omega

lemma eqMask_cons (a : Nat) (axis : List Nat) (date : Nat) :
    eqMask (a :: axis) date = (if a = date then 1 else 0) :: eqMask axis date := rfl

lemma eqMask_sum (axis : List Nat) (date : Nat) :
    (eqMask axis date).sum = axis.count date := by
  induction axis with
  | nil => rfl
  | cons a axis ih =>
      rw [eqMask_cons]
      by_cases h : a = date
      · simp [h, List.count_cons, ih]
        omega
      · simp [h, List.count_cons, ih, Ne.symm h]

/-- Sum of the cumulative sums of the flipped equality mask, the quantity
`where` computes before subtracting 1. -/
def whereSum (date : Nat) (axis : List Nat) : Nat :=
  (cumsum (eqMask axis date).reverse).sum

lemma whereSum_cons (date a : Nat) (axis : List Nat) :
    whereSum date (a :: axis) =
      (if a = date then 1 else 0) + axis.count date + whereSum date axis := by
  unfold whereSum
  rw [eqMask_cons, cumsum_reverse_cons, eqMask_sum]

lemma whereSum_of_count_zero (date : Nat) (axis : List Nat)
    (h : axis.count date = 0) : whereSum date axis = 0 := by
  induction axis with
  | nil => rfl
  | cons a axis ih =>
      rw [List.count_cons] at h
      rw [whereSum_cons]
      by_cases ha : a = date
      · simp [ha] at h
      · have hc : axis.count date = 0 := by
          by_cases hb : a == date
          · exact absurd (by exact beq_iff_eq.mp hb) ha
          · simpa [hb] using h
        simp [ha, hc, ih hc]

lemma whereSum_of_unique (date : Nat) (axis : List Nat) (i : Nat)
    (hget : axis.get? i = some date) (hcount : axis.count date = 1) :
    whereSum date axis = i + 1 := by
  induction axis generalizing i with
  | nil => simp at hget
  | cons a axis ih =>
      rw [whereSum_cons]
      rw [List.count_cons] at hcount
      cases i with
      | zero =>
          have ha : a = date := by simpa using hget
          have hc : axis.count date = 0 := by
            simp [ha] at hcount
            exact hcount
          simp [ha, hc, whereSum_of_count_zero date axis hc]
      | succ j =>
          have hget' : axis.get? j = some date := by simpa using hget
          have hmem : date ∈ axis := List.get?_mem hget'
          have ha : a ≠ date := by
            intro hae
            have : axis.count date = 0 := by simp [hae] at hcount; exact hcount
            exact absurd (List.count_pos_iff.mpr hmem) (by omega)
          have hc : axis.count date = 1 := by
            have : (if a == date then 1 else 0) = 0 := by
              simp [beq_iff_eq, ha]
            omega
          rw [ih j hget' hc]
          simp [ha, hc]
          omega

lemma whereIdx_of_unique (date : Nat) (axis : List Nat) (i : Nat)
    (hget : axis.get? i = some date) (hcount : axis.count date = 1) :
    whereIdx date axis = i := by
  unfold whereIdx
  have h : whereSum date axis = i + 1 := whereSum_of_unique date axis i hget hcount
  unfold whereSum at h
  rw [h]
  omega

lemma whereIdx_of_absent (date : Nat) (axis : List Nat) (h : date ∉ axis) :
    whereIdx date axis = -1 := by
  unfold whereIdx
  have hc : axis.count date = 0 := List.count_eq_zero.mpr h
  have hs : whereSum date axis = 0 := whereSum_of_count_zero date axis hc
  unfold whereSum at hs
  rw [hs]
  rfl

lemma neg_one_le_whereIdx (date : Nat) (axis : List Nat) :
    -1 ≤ whereIdx date axis := by
  unfold whereIdx
  omega

/-! The cell-writing part of `gantt_to_excel`.  The worksheet writes performed
for one task row are reified as a list of `CellWrite` records in program
order; the final content of a grid cell is the last write to it (later
`worksheet.write` calls overwrite earlier ones). -/

/-- Embeds Python `range(a, b)` over integers, as used in the per-task
column loop of `gantt_to_excel`. -/
def intRange (a b : Int) : List Int := (List.range (b - a).toNat).map (fun k : Nat => a + (k : Int))

/-- Content of one worksheet cell written by `gantt_to_excel`: the bold task
label written at column 0, or a shaded bar cell carrying the `symbol`. -/
inductive Cell where
  | label : String → Cell
  | bar : String → Cell
deriving DecidableEq

/-- One `worksheet.write(row, col, content)` call. -/
structure CellWrite where
  row : Nat
  col : Int
  content : Cell
deriving DecidableEq

/-- Embeds `start_index = where(start, date_range) + 1`. -/
def start_index (start : Nat) (axis : List Nat) : Int := whereIdx start axis + 1

/-- Embeds `end_index = where(end, date_range) + 2`. -/
def end_index (e : Nat) (axis : List Nat) : Int := whereIdx e axis + 2

/-- The columns of the shaded cells of one task:
`range(start_index, end_index)`. -/
def barCols (start e : Nat) (axis : List Nat) : List Int :=
  intRange (start_index start axis) (end_index e axis)

/-- Embeds the body of the per-task loop of `gantt_to_excel`: first
`worksheet.write(row + 1, 0, task, bold_format)`, then one shaded write per
column in `range(start_index, end_index)`. -/
def renderTaskWrites (task : String) (start e : Nat) (row : Nat) (axis : List Nat)
    (symbol : String) : List CellWrite :=
  CellWrite.mk (row + 1) 0 (Cell.label task) ::
    (barCols start e axis).map (fun c => CellWrite.mk (row + 1) c (Cell.bar symbol))

/-- Final content of cell `(r, c)` after a list of writes executes in order:
the content of the last write targeting that cell. -/
def finalCell (ws : List CellWrite) (r : Nat) (c : Int) : Option Cell :=
  ((ws.filter (fun w => w.row == r && w.col == c)).getLast?).map CellWrite.content

lemma mem_intRange (a b c : Int) : c ∈ intRange a b ↔ a ≤ c ∧ c < b := by
  unfold intRange
  simp only [List.mem_map, List.mem_range]
  constructor
  · rintro ⟨k, hk, rfl⟩
    omega
  · rintro ⟨h1, h2⟩
    exact ⟨(c - a).toNat, by omega, by omega⟩

lemma length_intRange (a b : Int) : (intRange a b).length = (b - a).toNat := by
  rw [intRange, List.length_map, List.length_range]

lemma intRange_succ_left (a b : Int) (h : a < b) :
    intRange a b = a :: intRange (a + 1) b := by
  unfold intRange
  have hb : (b - a).toNat = (b - (a + 1)).toNat + 1 := by omega
  rw [hb, List.range_succ_eq_map, List.map_cons, List.map_map]
  refine congrArg₂ List.cons (by simp) ?_
  apply List.map_congr_left
  intro k _
  simp only [Function.comp, Nat.succ_eq_add_one]
  push_cast
  ring

/-! The row-assignment part of `gantt_to_excel`.  One row of the input
DataFrame becomes a `Task`.  The Python code builds
`row_nums = {desc: row for row, desc in enumerate(
    data.groupby(description).apply(lambda x: x[start_col].min())
        .sort_values().index)}`
and then maps every task's description through that dict.  We model the
groupby/min aggregation as `minStart`, the distinct group keys as `descs`
(pandas orders groups by key and `sort_values` then reorders them by value;
the order among keys tied on the minimum start date is an implementation
detail of the underlying sort, so the embedding commits to one concrete
stable sort), the value sort as an insertion sort on the aggregated minimum,
and the enumerate-dict lookup as the first index in the sorted key list. -/

/-- One row of the input DataFrame after the date columns are parsed. -/
structure Task where
  description : String
  start_date : Nat
  end_date : Nat
  duration : Nat
deriving DecidableEq

/-- The distinct task descriptions: the group keys of
`data.groupby(description)`. -/
def descs (tasks : List Task) : List String := (tasks.map Task.description).dedup

/-- All start dates of the tasks carrying description `d` (the group of `d`). -/
def startsOf (tasks : List Task) (d : String) : List Nat :=
  (tasks.filter (fun t => t.description = d)).map Task.start_date

/-- Embeds `x[start_col].min()` over the group of description `d`
(0 for an empty group; every group key has a nonempty group). -/
def minStart (tasks : List Task) (d : String) : Nat :=
  match startsOf tasks d with
  | [] => 0
  | x :: xs => xs.foldl Nat.min x

/-- Insert a description into a list sorted ascending by `key`. -/
def insertByKey (key : String → Nat) (d : String) : List String → List String
  | [] => [d]
  | x :: xs => if key d ≤ key x then d :: x :: xs else x :: insertByKey key d xs

/-- Insertion sort by `key`: embeds `Series.sort_values()` on the aggregated
minimum start dates (the tie order among equal keys is unspecified in the
source; this commits to one concrete order). -/
def sortByKey (key : String → Nat) : List String → List String
  | [] => []
  | x :: xs => insertByKey key x (sortByKey key xs)

/-- The distinct descriptions ranked ascending by minimum start date: the
`.sort_values().index` sequence that `enumerate` numbers. -/
def rankedDescs (tasks : List Task) : List String :=
  sortByKey (minStart tasks) (descs tasks)

/-- First index of `d` in a list, or `none`: embeds the lookup in the
`row_nums` dict built by `enumerate` (keys are distinct, so the dict maps
each description to its position in the ranked sequence). -/
def idxOf : String → List String → Option Nat
  | _, [] => none
  | d, x :: xs => if x = d then some 0 else (idxOf d xs).map (fun r => r + 1)

/-- Embeds `row_nums[d]`. -/
def row_nums (tasks : List Task) (d : String) : Option Nat :=
  idxOf d (rankedDescs tasks)

/-- Embeds `data.index = data[description].map(row_nums)` for one task. -/
def taskRow (tasks : List Task) (t : Task) : Option Nat :=
  row_nums tasks t.description

/-! Sortedness, permutation and index lemmas for the row assignment. -/

lemma insertByKey_perm (key : String → Nat) (d : String) (l : List String) :
    List.Perm (insertByKey key d l) (d :: l) := by
  induction l with
  | nil => rfl
  | cons x xs ih =>
      unfold insertByKey
      by_cases h : key d ≤ key x
      · simp [h]
      · simp only [h, if_false]
        exact (ih.cons x).trans (List.Perm.swap d x xs)

lemma sortByKey_perm (key : String → Nat) (l : List String) :
    List.Perm (sortByKey key l) l := by
  induction l with
  | nil => rfl
  | cons x xs ih =>
      unfold sortByKey
      exact (insertByKey_perm key x (sortByKey key xs)).trans (ih.cons x)

lemma insertByKey_sorted (key : String → Nat) (d : String) (l : List String)
    (h : l.Pairwise (fun a b => key a ≤ key b)) :
    (insertByKey key d l).Pairwise (fun a b => key a ≤ key b) := by
  induction l with
  | nil => simp [insertByKey]
  | cons x xs ih =>
      unfold insertByKey
      rcases List.pairwise_cons.mp h with ⟨hx, hxs⟩
      by_cases hd : key d ≤ key x
      · simp only [hd, if_true]
        refine List.pairwise_cons.mpr ⟨?_, h⟩
        intro y hy
        rcases List.mem_cons.mp hy with hy | hy
        · simp only [hy]
          exact hd
        · exact le_trans hd (hx y hy)
      · simp only [hd, if_false]
        refine List.pairwise_cons.mpr ⟨?_, ih hxs⟩
        intro y hy
        have hy' : y ∈ d :: xs := (insertByKey_perm key d xs).mem_iff.mp hy
        rcases List.mem_cons.mp hy' with he | hxm
        · simp only [he]
          omega
        · exact hx y hxm

lemma sortByKey_sorted (key : String → Nat) (l : List String) :
    (sortByKey key l).Pairwise (fun a b => key a ≤ key b) := by
  induction l with
  | nil => simp [sortByKey]
  | cons x xs ih => exact insertByKey_sorted key x (sortByKey key xs) ih

lemma rankedDescs_perm (tasks : List Task) :
    List.Perm (rankedDescs tasks) (descs tasks) :=
  sortByKey_perm (minStart tasks) (descs tasks)

lemma rankedDescs_nodup (tasks : List Task) : (rankedDescs tasks).Nodup :=
  ((rankedDescs_perm tasks).nodup_iff).mpr (List.nodup_dedup _)

lemma idxOf_of_mem (d : String) (l : List String) (h : d ∈ l) :
    ∃ r, idxOf d l = some r ∧ r < l.length := by
  induction l with
  | nil => simp at h
  | cons x xs ih =>
      unfold idxOf
      by_cases hx : x = d
      · exact ⟨0, by simp [hx], by simp⟩
      · have hd : d ∈ xs := by
          rcases List.mem_cons.mp h with he | hm
          · exact absurd he.symm hx
          · exact hm
        rcases ih hd with ⟨r, hr, hlen⟩
        exact ⟨r + 1, by simp [hx, hr], by simp; omega⟩

lemma idxOf_getElem (l : List String) (i : Nat) (h : i < l.length)
    (hn : l.Nodup) : idxOf (l[i]) l = some i := by
  induction l generalizing i with
  | nil => simp at h
  | cons x xs ih =>
      rcases List.nodup_cons.mp hn with ⟨hx, hxs⟩
      cases i with
      | zero => simp [idxOf]
      | succ j =>
          have hj : j < xs.length := by simpa using h
          have hmem : xs[j] ∈ xs := List.getElem_mem hj
          have hne : x ≠ xs[j] := fun he => hx (he ▸ hmem)
          have : (x :: xs)[j + 1] = xs[j] := by simp
          rw [this]
          unfold idxOf
          simp [hne, ih j hj hxs]

/-! The schema checks at the top of `gantt_to_excel`. -/

/-- The input DataFrame as seen by the two assert statements: column names
plus rows of cells, a cell being `none` when it is null/missing. -/
structure Frame where
  columns : List String
  rows : List (List (Option String))

/-- Embeds `{start_col, end_col, duration_col, description}.issubset(data.columns)`. -/
def requiredColsPresent (f : Frame) (required : List String) : Bool :=
  required.all (fun c => f.columns.contains c)

/-- Embeds `data.notnull().any(None)`: `notnull()` is elementwise
non-nullness and `any(None)` reduces over both axes, so this is true exactly
when at least one cell anywhere in the frame is non-null. -/
def notnullAny (f : Frame) : Bool :=
  f.rows.any (fun r => r.any (fun c => c.isSome))

/-- The two asserts at the top of `gantt_to_excel` succeed. -/
def schemaChecksPass (f : Frame) (required : List String) : Bool :=
  requiredColsPresent f required && notnullAny f

/-- True when some cell of the frame is null/missing. -/
def hasNullCell (f : Frame) : Bool :=
  f.rows.any (fun r => r.any (fun c => c.isNone))

/-- A one-row input whose start-date field is null while the other fields are
filled in. -/
def c2Frame : Frame :=
  { columns := ["START DATE", "END DATE", "DURATION (days)", "TASK"],
    rows := [[none, some "2021-01-12", some "5", some "Research"]] }

/-! Helper lemmas about the axis builder. -/

lemma mem_date_range (s e d : Nat) : d ∈ date_range s e ↔ s ≤ d ∧ d ≤ e := by
  unfold date_range
  simp only [List.mem_map, List.mem_range]
  constructor
  · rintro ⟨k, hk, rfl⟩
    omega
  · rintro ⟨h1, h2⟩
    exact ⟨d - s, by omega, by omega⟩

lemma gds_some (s e : Nat) (weekend : List String) (holidays : List Nat)
    (axis : List Nat) (h : generate_date_series s e weekend holidays = some axis) :
    axis = (date_range s e).filter
      (fun d => is_workday d (weekend.map String.toLower) holidays) := by
  unfold generate_date_series at h
  by_cases hv : ((weekend.map String.toLower).all (fun w => DAYS.contains w)) = true
  · rw [if_pos hv] at h
    exact (Option.some.injEq _ _ ▸ h).symm
  · rw [if_neg hv] at h
    simp at h

lemma gds_none_iff (s e : Nat) (weekend : List String) (holidays : List Nat) :
    generate_date_series s e weekend holidays = none ↔
      ((weekend.map String.toLower).all (fun w => DAYS.contains w)) = false := by
  unfold generate_date_series
  cases hv : ((weekend.map String.toLower).all (fun w => DAYS.contains w)) with
  | true => simp
  | false => simp

/-! The claims. -/

/-- C1: for every axis and every date that occurs in the axis exactly once,
`where(date, axis)` returns the 0-based index of that date in the axis. -/
theorem c1_where_unique_index (axis : List Nat) (date : Nat) (i : Nat)
    (hget : axis.get? i = some date) (hcount : axis.count date = 1) :
    whereIdx date axis = i :=
  whereIdx_of_unique date axis i hget hcount

/-- Witness for C1: in axis [3, 5, 9] the date 5 occurs exactly once, at
index 1, and `where` returns 1. -/
theorem c1_witness :
    ([3, 5, 9] : List Nat).get? 1 = some 5 ∧ ([3, 5, 9] : List Nat).count 5 = 1 ∧
      whereIdx 5 [3, 5, 9] = 1 :=
  ⟨by decide, by decide, c1_where_unique_index [3, 5, 9] 5 1 (by decide) (by decide)⟩

/-- C2 (code bug): the spec requires `gantt_to_excel` to fail fast with a
schema error when any required field is null, and the assert's own message
says "Nulls are not permitted in the data", but the check
`data.notnull().any(None)` passes whenever at least one cell anywhere is
non-null.  This frame has a null start-date field, yet both schema checks
succeed, so the computation proceeds. -/
theorem c2_null_passes_schema_checks :
    hasNullCell c2Frame = true ∧
      schemaChecksPass c2Frame ["START DATE", "END DATE", "DURATION (days)", "TASK"] = true := by
  decide

/-- C3: for every axis and every date not present in it, `where(date, axis)`
returns the sentinel -1; the function is total, so downstream task
resolution proceeds without surfacing any error. -/
theorem c3_where_absent_sentinel (axis : List Nat) (date : Nat) (h : date ∉ axis) :
    whereIdx date axis = -1 :=
  whereIdx_of_absent date axis h

/-- Witness for C3: 4 is absent from the axis [5, 6] and `where` returns -1. -/
theorem c3_witness : (4 : Nat) ∉ ([5, 6] : List Nat) ∧ whereIdx 4 [5, 6] = -1 :=
  ⟨by decide, c3_where_absent_sentinel [5, 6] 4 (by decide)⟩

/-- C4: the axis builder raises the policy error (the assert on the weekend
set, the spec's `InvalidPolicyError`) iff the weekend set contains a name
that is not, case-insensitively, one of the seven canonical weekday names;
in particular any case variant of a valid weekday name is accepted. -/
theorem c4_invalid_policy_iff (s e : Nat) (weekend : List String) (holidays : List Nat) :
    generate_date_series s e weekend holidays = none ↔
      ∃ w ∈ weekend, w.toLower ∉ DAYS := by
  rw [gds_none_iff]
  simp

/-- C5: for a policy the builder accepts, a date of the inclusive range
[s, e] is omitted from the axis iff its weekday name is in the (lower-cased)
weekend set or it is a holiday; all other dates of the range appear. -/
theorem c5_excluded_iff (s e : Nat) (weekend : List String) (holidays : List Nat)
    (axis : List Nat) (h : generate_date_series s e weekend holidays = some axis)
    (d : Nat) (h1 : s ≤ d) (h2 : d ≤ e) :
    d ∈ axis ↔ ¬(weekdayName d ∈ weekend.map String.toLower ∨ d ∈ holidays) := by
  rw [gds_some s e weekend holidays axis h]
  simp [List.mem_filter, mem_date_range, h1, h2, is_workday]
  tauto

/-- Witness for C5: with an empty weekend set and holiday {2} on the range
[0, 6], the axis is [0, 1, 3, 4, 5, 6] and day 3 (not a holiday) is
present. -/
theorem c5_witness :
    generate_date_series 0 6 [] [2] = some [0, 1, 3, 4, 5, 6] ∧
      ((3 : Nat) ∈ ([0, 1, 3, 4, 5, 6] : List Nat) ↔
        ¬(weekdayName 3 ∈ ([] : List String).map String.toLower ∨
          (3 : Nat) ∈ ([2] : List Nat))) :=
  ⟨by decide,
   c5_excluded_iff 0 6 [] [2] [0, 1, 3, 4, 5, 6] (by decide) 3 (by decide) (by decide)⟩

/-- C6: with an empty weekend set and no holidays the axis builder returns
the full inclusive calendar range: consecutive days from `s` to `e` with no
filtering. -/
theorem c6_full_range (s e : Nat) (h : s ≤ e) :
    ∃ axis, generate_date_series s e [] [] = some axis ∧
      axis.length = e + 1 - s ∧
      ∀ i : Nat, i < axis.length → axis[i]? = some (s + i) := by
  refine ⟨date_range s e, ?_, ?_, ?_⟩
  · unfold generate_date_series
    simp [is_workday]
  · simp [date_range]
  · intro i hi
    simp only [date_range, List.length_map, List.length_range] at hi
    simp only [date_range, List.getElem?_map]
    rw [List.getElem?_range hi]
    rfl

/-- Witness for C6: the range [2, 4] with the empty policy. -/
theorem c6_witness :
    ∃ axis, generate_date_series 2 4 [] [] = some axis ∧
      axis.length = 4 + 1 - 2 ∧
      ∀ i : Nat, i < axis.length → axis[i]? = some (2 + i) :=
  c6_full_range 2 4 (by decide)

/-- C7: every axis the builder accepts is strictly increasing in
chronological order, hence contains no duplicate dates. -/
theorem c7_axis_ascending (s e : Nat) (weekend : List String) (holidays : List Nat)
    (axis : List Nat) (h : generate_date_series s e weekend holidays = some axis) :
    axis.Pairwise (· < ·) ∧ axis.Nodup := by
  have hax := gds_some s e weekend holidays axis h
  have hdr : (date_range s e).Pairwise (· < ·) := by
    unfold date_range
    rw [List.pairwise_map]
    exact (List.pairwise_lt_range _).imp (fun hab => by omega)
  have hp : axis.Pairwise (· < ·) := by
    rw [hax]
    exact hdr.sublist (List.filter_sublist _)
  exact ⟨hp, hp.imp (fun hab => Nat.ne_of_lt hab)⟩

/-- Witness for C7: the axis built over [0, 3] with the empty policy. -/
theorem c7_witness :
    ([0, 1, 2, 3] : List Nat).Pairwise (· < ·) ∧ ([0, 1, 2, 3] : List Nat).Nodup :=
  c7_axis_ascending 0 3 [] [] [0, 1, 2, 3] (by decide)

/-- C8: for a task whose start date sits at axis position `si` and whose end
date at position `ei` (both present exactly once), the shaded columns are
exactly the half-open range [si + 1, ei + 2) of grid columns, covering
ei - si + 1 columns; column 0 is left for the row label. -/
theorem c8_span (axis : List Nat) (start e si ei : Nat)
    (hs : axis.get? si = some start) (hcs : axis.count start = 1)
    (he : axis.get? ei = some e) (hce : axis.count e = 1) (hle : si ≤ ei) :
    (∀ c : Int, c ∈ barCols start e axis ↔ (si : Int) + 1 ≤ c ∧ c < (ei : Int) + 2) ∧
      (barCols start e axis).length = ei - si + 1 := by
  have h1 : whereIdx start axis = si := whereIdx_of_unique start axis si hs hcs
  have h2 : whereIdx e axis = ei := whereIdx_of_unique e axis ei he hce
  unfold barCols start_index end_index
  rw [h1, h2]
  constructor
  · intro c
    rw [mem_intRange]
  · rw [length_intRange]
    omega

/-- Witness for C8: axis [10, 11, 12], start 10 at position 0, end 12 at
position 2; the shaded columns are 1, 2, 3. -/
theorem c8_witness :
    (∀ c : Int, c ∈ barCols 10 12 [10, 11, 12] ↔
      ((0 : Nat) : Int) + 1 ≤ c ∧ c < ((2 : Nat) : Int) + 2) ∧
      (barCols 10 12 [10, 11, 12]).length = 2 - 0 + 1 :=
  c8_span [10, 11, 12] 10 12 0 2 (by decide) (by decide) (by decide) (by decide) (by decide)

/-- C10: when a task's start date is absent from the axis, the computed
start column is 0 (the -1 sentinel plus the +1 offset) — the grid column
reserved for the row label — and the task's shaded bar write to column 0
executes after the label write, so the final content of the label cell is
the shaded bar, not the label. -/
theorem c10_absent_start_hits_label (axis : List Nat) (start e : Nat)
    (task symbol : String) (row : Nat) (h : start ∉ axis) :
    start_index start axis = 0 ∧
      finalCell (renderTaskWrites task start e row axis symbol) (row + 1) 0 =
        some (Cell.bar symbol) := by
  have hw : whereIdx start axis = -1 := whereIdx_of_absent start axis h
  have hsi : start_index start axis = 0 := by
    unfold start_index
    omega
  refine ⟨hsi, ?_⟩
  have hb : (0 : Int) < end_index e axis := by
    unfold end_index
    have hge := neg_one_le_whereIdx e axis
    omega
  have hcols : barCols start e axis = 0 :: intRange 1 (end_index e axis) := by
    unfold barCols
    rw [hsi, intRange_succ_left 0 (end_index e axis) hb]
    norm_num
  have hrest : ((intRange 1 (end_index e axis)).map
      (fun c => CellWrite.mk (row + 1) c (Cell.bar symbol))).filter
        (fun w => w.row == row + 1 && w.col == 0) = [] := by
    rw [List.filter_eq_nil_iff]
    intro w hwmem
    rcases List.mem_map.mp hwmem with ⟨c, hc, rfl⟩
    have hcr := (mem_intRange 1 (end_index e axis) c).mp hc
    simp only [Bool.and_eq_true, beq_iff_eq, not_and]
    intro hcon hc0
    omega
  unfold finalCell renderTaskWrites
  rw [hcols, List.map_cons]
  rw [List.filter_cons_of_pos (by simp), List.filter_cons_of_pos (by simp), hrest]
  rfl

/-- Witness for C10: start date 4 is absent from the axis [5, 6]; the bar of
the task overwrites its own label cell. -/
theorem c10_witness :
    start_index 4 [5, 6] = 0 ∧
      finalCell (renderTaskWrites "T" 4 5 0 [5, 6] "x") (0 + 1) 0 =
        some (Cell.bar "x") :=
  c10_absent_start_hits_label [5, 6] 4 5 "T" "x" 0 (by decide)

/-- C9: the ranked description list contains exactly the distinct task
descriptions, without duplicates, ordered ascending by the minimum start
date of each description's occurrences; the description of rank i is mapped
to row i; every task receives a row, namely the rank of its description, so
tasks sharing a description share one row. -/
theorem c9_row_assignment (tasks : List Task) (i : Nat)
    (hi : i < (rankedDescs tasks).length)
    (t1 t2 : Task) (h1 : t1 ∈ tasks) (h2 : t2 ∈ tasks)
    (hd : t1.description = t2.description) :
    (∀ d, d ∈ rankedDescs tasks ↔ d ∈ tasks.map Task.description) ∧
      (rankedDescs tasks).Nodup ∧
      (rankedDescs tasks).Pairwise (fun a b => minStart tasks a ≤ minStart tasks b) ∧
      row_nums tasks ((rankedDescs tasks).get ⟨i, hi⟩) = some i ∧
      (∃ r, taskRow tasks t1 = some r ∧ r < (rankedDescs tasks).length) ∧
      taskRow tasks t1 = taskRow tasks t2 := by
  refine ⟨?_, rankedDescs_nodup tasks, sortByKey_sorted _ _, ?_, ?_, ?_⟩
  · intro d
    rw [(rankedDescs_perm tasks).mem_iff]
    exact List.mem_dedup
  · exact idxOf_getElem (rankedDescs tasks) i hi (rankedDescs_nodup tasks)
  · have hm : t1.description ∈ rankedDescs tasks := by
      rw [(rankedDescs_perm tasks).mem_iff]
      exact List.mem_dedup.mpr (List.mem_map_of_mem Task.description h1)
    exact idxOf_of_mem t1.description (rankedDescs tasks) hm
  · unfold taskRow row_nums
    rw [hd]

/-- A concrete task table for the C9 witness: two tasks named Research. -/
def c9Tasks : List Task :=
  [Task.mk "Research" 6 12 5, Task.mk "Define" 6 8 3,
   Task.mk "Build" 13 21 7, Task.mk "Research" 7 12 4]

/-- Witness for C9, at rank 1 and the two Research tasks. -/
theorem c9_witness :
    (∀ d, d ∈ rankedDescs c9Tasks ↔ d ∈ c9Tasks.map Task.description) ∧
      (rankedDescs c9Tasks).Nodup ∧
      (rankedDescs c9Tasks).Pairwise
        (fun a b => minStart c9Tasks a ≤ minStart c9Tasks b) ∧
      row_nums c9Tasks ((rankedDescs c9Tasks).get ⟨1, by decide⟩) = some 1 ∧
      (∃ r, taskRow c9Tasks (Task.mk "Research" 6 12 5) = some r ∧
        r < (rankedDescs c9Tasks).length) ∧
      taskRow c9Tasks (Task.mk "Research" 6 12 5) =
        taskRow c9Tasks (Task.mk "Research" 7 12 4) :=
  c9_row_assignment c9Tasks 1 (by decide) (Task.mk "Research" 6 12 5)
    (Task.mk "Research" 7 12 4) (by decide) (by decide) rfl

end Gantt
